import Mathlib

/-!
Verification of the msgpack bin-frame codec of json2msgpack.

Shallow embedding of the Go sources:
  - writeMsgpackBinArrayHeader (all three files, identical copies)
  - DecodeMsgpackBinArrayHeader (msgpackParseBench.go, jsonParseBench.go)
  - the framing tail of jsonToMsgp (json2msgpack main file)
  - the line-driven encode loop processFile (json2msgpack main file)
  - the frame-driven decode loop processFile (msgpackParseBench.go)

Bytes are modelled as Nat (values below 256 on real inputs); machine
integer conversions are explicit `% 2^w` operations; Go errors are
modelled as a Bool flag (true means a non-nil error), and a Go runtime
panic from an out-of-bounds slice access is modelled as `none` of an
Option result.
-/

/-- Result quadruple of DecodeMsgpackBinArrayHeader: the named return
values (headerSize, payloadSize, totalFrameSize, err) of the Go
function, with err modelled as a Bool (true = non-nil error). -/
structure DecodeResult where
  headerSize : Nat
  payloadSize : Nat
  totalFrameSize : Nat
  err : Bool
deriving DecidableEq, Repr

/-- Embedding of writeMsgpackBinArrayHeader (the byte list it writes).
The Go parameter is a uint32, so callers guarantee l < 2^32; the
narrowing conversions uint8(l) and uint16(l) of the Go code are the
explicit `% 256` and `% 65536`, and the big-endian byte extraction of
binary.BigEndian.PutUint16/PutUint32 is written with `/` and `% 256`. -/
def writeMsgpackBinArrayHeader (l : Nat) : List Nat :=
  if l < 256 then
    [196, l % 256]
  else if l < 65536 then
    [197, l % 65536 / 256, l % 65536 % 256]
  else
    [198, l / 16777216 % 256, l / 65536 % 256, l / 256 % 256, l % 256]

/-- Embedding of DecodeMsgpackBinArrayHeader. The unconditional read of
p[0] (and the guarded reads of p[1..4]) are modelled with `p[i]?`; an
out-of-bounds access (a Go runtime panic) yields `none`, a normal return
yields `some` of the result quadruple. The Go switch has no default
case, so an unrecognized tag byte falls through to the final
`totalFrameSize = headerSize + payloadSize` with the zero values of all
named results and a nil error. -/
def DecodeMsgpackBinArrayHeader (p : List Nat) : Option DecodeResult :=
  let lenp := p.length
  match p[0]? with
  | none => none
  | some t =>
    if t = 196 then
      if lenp < 2 then some ⟨0, 0, 0, true⟩
      else
        match p[1]? with
        | none => none
        | some b1 => some ⟨2, b1, 2 + b1, false⟩
    else if t = 197 then
      if lenp < 3 then some ⟨0, 0, 0, true⟩
      else
        match p[1]?, p[2]? with
        | some b1, some b2 =>
            some ⟨3, b1 * 256 + b2, 3 + (b1 * 256 + b2), false⟩
        | _, _ => none
    else if t = 198 then
      if lenp < 5 then some ⟨0, 0, 0, true⟩
      else
        match p[1]?, p[2]?, p[3]?, p[4]? with
        | some b1, some b2, some b3, some b4 =>
            some ⟨5, b1 * 16777216 + b2 * 65536 + b3 * 256 + b4,
                  5 + (b1 * 16777216 + b2 * 65536 + b3 * 256 + b4), false⟩
        | _, _, _, _ => none
    else some ⟨0, 0, 0, false⟩

/-- C1: writeMsgpackBinArrayHeader selects the unique minimal-width
variant for every l < 2^32: below 256 the 2-byte 0xC4 form with the
length as one byte, from 256 to 65535 the 3-byte 0xC5 form with the
length big-endian in 2 bytes, from 65536 up the 5-byte 0xC6 form with
the length big-endian in 4 bytes; and the boundary lengths 255, 256,
65535, 65536 and 0 select exactly the expected variants. -/
theorem claim1_header_minimal_width :
    (∀ l : Nat, l < 4294967296 →
      (l < 256 → writeMsgpackBinArrayHeader l = [196, l]) ∧
      (256 ≤ l → l < 65536 →
        writeMsgpackBinArrayHeader l = [197, l / 256, l % 256]) ∧
      (65536 ≤ l →
        writeMsgpackBinArrayHeader l =
          [198, l / 16777216, l / 65536 % 256, l / 256 % 256, l % 256])) ∧
    writeMsgpackBinArrayHeader 255 = [196, 255] ∧
    writeMsgpackBinArrayHeader 256 = [197, 1, 0] ∧
    writeMsgpackBinArrayHeader 65535 = [197, 255, 255] ∧
    writeMsgpackBinArrayHeader 65536 = [198, 0, 1, 0, 0] ∧
    writeMsgpackBinArrayHeader 0 = [196, 0] := by
  refine ⟨fun l hl => ⟨?_, ?_, ?_⟩, by decide, by decide, by decide, by decide, by decide⟩
  · intro h
    simp [writeMsgpackBinArrayHeader, h, Nat.mod_eq_of_lt h]
  · intro h1 h2
    simp only [writeMsgpackBinArrayHeader, if_neg (by omega : ¬ l < 256), if_pos h2]
    rw [Nat.mod_eq_of_lt h2]
  · intro h
    simp only [writeMsgpackBinArrayHeader, if_neg (by omega : ¬ l < 256),
      if_neg (by omega : ¬ l < 65536)]
    have : l / 16777216 % 256 = l / 16777216 := Nat.mod_eq_of_lt (by omega)
    rw [this]

/-- Witness for C1 at the concrete length 300. -/
theorem claim1_header_minimal_width_witness :
    writeMsgpackBinArrayHeader 300 = [197, 300 / 256, 300 % 256] :=
  (claim1_header_minimal_width.1 300 (by decide)).2.1 (by decide) (by decide)

/-- Decode of a 0xC4-tagged list with at least the full 2-byte header. -/
theorem decode_cons_c4 (b1 : Nat) (s : List Nat) :
    DecodeMsgpackBinArrayHeader (196 :: b1 :: s) = some ⟨2, b1, 2 + b1, false⟩ := by
  simp [DecodeMsgpackBinArrayHeader]

theorem decode_cons_c5 (b1 b2 : Nat) (s : List Nat) :
    DecodeMsgpackBinArrayHeader (197 :: b1 :: b2 :: s) =
      some ⟨3, b1 * 256 + b2, 3 + (b1 * 256 + b2), false⟩ := by
  simp [DecodeMsgpackBinArrayHeader]

theorem decode_cons_c6 (b1 b2 b3 b4 : Nat) (s : List Nat) :
    DecodeMsgpackBinArrayHeader (198 :: b1 :: b2 :: b3 :: b4 :: s) =
      some ⟨5, b1 * 16777216 + b2 * 65536 + b3 * 256 + b4,
            5 + (b1 * 16777216 + b2 * 65536 + b3 * 256 + b4), false⟩ := by
  simp [DecodeMsgpackBinArrayHeader]

theorem decode_encode_header (l : Nat) (suffix : List Nat) (hl : l < 4294967296) :
    DecodeMsgpackBinArrayHeader (writeMsgpackBinArrayHeader l ++ suffix) =
      some ⟨(writeMsgpackBinArrayHeader l).length, l,
            (writeMsgpackBinArrayHeader l).length + l, false⟩ := by
  unfold writeMsgpackBinArrayHeader
  split
  · rename_i h
    rw [Nat.mod_eq_of_lt h]
    simp only [List.cons_append, List.nil_append, decode_cons_c4, List.length_cons,
      List.length_nil]
  · split
    · rename_i h1 h2
      rw [Nat.mod_eq_of_lt h2]
      simp only [List.cons_append, List.nil_append, decode_cons_c5, List.length_cons,
        List.length_nil]
      have hrec : l / 256 * 256 + l % 256 = l := by omega
      rw [hrec]
    · rename_i h1 h2
      simp only [List.cons_append, List.nil_append, decode_cons_c6, List.length_cons,
        List.length_nil]
      have hrec : l / 16777216 % 256 * 16777216 + l / 65536 % 256 * 65536 +
          l / 256 % 256 * 256 + l % 256 = l := by omega
      rw [hrec]

/-- C2: for every payload length l < 2^32 and any suffix, decoding the
bytes produced by writeMsgpackBinArrayHeader l followed by the suffix
succeeds (nil error) and reports payload length exactly l, header width
equal to the emitted width, and total frame length header width + l;
consequently framing a payload P (length < 2^32) and de-framing the
resulting bytes recovers P exactly after dropping the reported header
width, and the frame is exactly header width + length P bytes. -/
theorem claim2_header_roundtrip :
    (∀ l : Nat, ∀ suffix : List Nat, l < 4294967296 →
      DecodeMsgpackBinArrayHeader (writeMsgpackBinArrayHeader l ++ suffix) =
        some ⟨(writeMsgpackBinArrayHeader l).length, l,
              (writeMsgpackBinArrayHeader l).length + l, false⟩) ∧
    (∀ P : List Nat, P.length < 4294967296 →
      DecodeMsgpackBinArrayHeader (writeMsgpackBinArrayHeader P.length ++ P) =
        some ⟨(writeMsgpackBinArrayHeader P.length).length, P.length,
              (writeMsgpackBinArrayHeader P.length).length + P.length, false⟩ ∧
      ((writeMsgpackBinArrayHeader P.length ++ P).drop
          (writeMsgpackBinArrayHeader P.length).length).take P.length = P ∧
      (writeMsgpackBinArrayHeader P.length ++ P).length =
        (writeMsgpackBinArrayHeader P.length).length + P.length) := by
  refine ⟨fun l suffix hl => decode_encode_header l suffix hl, fun P hP => ⟨?_, ?_, ?_⟩⟩
  · exact decode_encode_header P.length P hP
  · rw [List.drop_left, List.take_length]
  · rw [List.length_append]

/-- Witness for C2 at length 300 with suffix [9, 9] and payload [7, 8, 9]. -/
theorem claim2_header_roundtrip_witness :
    DecodeMsgpackBinArrayHeader (writeMsgpackBinArrayHeader 300 ++ [9, 9]) =
      some ⟨(writeMsgpackBinArrayHeader 300).length, 300,
            (writeMsgpackBinArrayHeader 300).length + 300, false⟩ ∧
    ((writeMsgpackBinArrayHeader 3 ++ [7, 8, 9]).drop
        (writeMsgpackBinArrayHeader 3).length).take 3 = [7, 8, 9] :=
  ⟨claim2_header_roundtrip.1 300 [9, 9] (by decide),
   ((claim2_header_roundtrip.2 [7, 8, 9] (by decide)).2.1)⟩

/-- Counterexample to C3: the byte 0x00 is not one of the three frame
tags, yet DecodeMsgpackBinArrayHeader on the one-byte slice [0x00]
returns a NIL error (err = false, with all sizes 0), because the Go
switch on the tag byte has no default case. The claim asserts a non-nil
unrecognized-frame-tag error for every such input. -/
theorem claim3_counterexample :
    DecodeMsgpackBinArrayHeader [0] = some ⟨0, 0, 0, false⟩ := by decide

/-- C3 amended: for every non-empty slice whose first byte is not one of
0xC4, 0xC5, 0xC6, DecodeMsgpackBinArrayHeader succeeds with a nil error
and reports headerSize = 0, payloadSize = 0, totalFrameSize = 0 (the
switch falls through with the zero values of the named results). -/
theorem claim3_unrecognized_tag_no_error (p : List Nat) (t : Nat)
    (h0 : p[0]? = some t) (h4 : t ≠ 196) (h5 : t ≠ 197) (h6 : t ≠ 198) :
    DecodeMsgpackBinArrayHeader p = some ⟨0, 0, 0, false⟩ := by
  simp [DecodeMsgpackBinArrayHeader, h0, h4, h5, h6]

/-- Witness for the amended C3 at the concrete slice [0x81]. -/
theorem claim3_unrecognized_tag_no_error_witness :
    DecodeMsgpackBinArrayHeader [129] = some ⟨0, 0, 0, false⟩ :=
  claim3_unrecognized_tag_no_error [129] 129 (by decide) (by decide) (by decide) (by decide)

/-- C4: for every slice whose first byte is one of the three frame tags
but whose length is below the full header width the tag identifies
(2 for 0xC4, 3 for 0xC5, 5 for 0xC6), DecodeMsgpackBinArrayHeader
returns a non-nil error and reports no payload length (all named
results keep their zero values). -/
theorem claim4_truncated_header_error (p : List Nat) (t : Nat)
    (h0 : p[0]? = some t)
    (hshort : (t = 196 ∧ p.length < 2) ∨ (t = 197 ∧ p.length < 3) ∨
              (t = 198 ∧ p.length < 5)) :
    DecodeMsgpackBinArrayHeader p = some ⟨0, 0, 0, true⟩ := by
  rcases hshort with ⟨ht, hl⟩ | ⟨ht, hl⟩ | ⟨ht, hl⟩ <;> subst ht <;>
    simp [DecodeMsgpackBinArrayHeader, h0, hl]

/-- Witness for C4 at the concrete slice [0xC5, 7] (length 2 < 3). -/
theorem claim4_truncated_header_error_witness :
    DecodeMsgpackBinArrayHeader [197, 7] = some ⟨0, 0, 0, true⟩ :=
  claim4_truncated_header_error [197, 7] 197 (by decide) (by decide)

/-- C9: DecodeMsgpackBinArrayHeader reads index 0 unconditionally, so a
non-empty slice is a hard precondition: on every slice of length at
least 1 the function returns normally (every access it performs is in
bounds, the length checks guarding all reads past index 0), while on
the empty slice it performs an out-of-bounds access (a Go runtime
panic, modelled as none) rather than returning an error. -/
theorem claim9_nonempty_precondition :
    (∀ p : List Nat, 1 ≤ p.length → (DecodeMsgpackBinArrayHeader p).isSome = true) ∧
    DecodeMsgpackBinArrayHeader [] = none := by
  refine ⟨fun p hp => ?_, by decide⟩
  match p with
  | t :: rest =>
    simp only [DecodeMsgpackBinArrayHeader, List.getElem?_cons_zero, List.length_cons]
    split
    · split
      · simp
      · rename_i hlen
        match rest with
        | b1 :: rest2 => simp
        | [] => simp at hlen
    · split
      · split
        · simp
        · rename_i hlen
          match rest with
          | b1 :: b2 :: rest2 => simp
          | [] => simp at hlen
          | [b1] => simp at hlen
      · split
        · split
          · simp
          · rename_i hlen
            match rest with
            | b1 :: b2 :: b3 :: b4 :: rest2 => simp
            | [] => simp at hlen
            | [b1] => simp at hlen
            | [b1, b2] => simp at hlen
            | [b1, b2, b3] => simp at hlen
        · simp

/-- Witness for C9 at the concrete slice [0xC4] of length 1. -/
theorem claim9_nonempty_precondition_witness :
    (DecodeMsgpackBinArrayHeader [196]).isSome = true :=
  claim9_nonempty_precondition.1 [196] (by decide)

/-- Embedding of the framing tail of jsonToMsgp: after the external
JSON decode and msgpack encode have produced the payload bytes in buf,
the Go code checks buf.Len() against the literal 4294967295, panics if
it is exceeded (before any header or payload byte is written), and
otherwise writes the header for uint32(blen) (the narrowing conversion
modelled as `% 2^32`) followed by the payload. The result is the pair
(bytes written to the output stream, fatal flag). -/
def jsonToMsgp (payload : List Nat) : List Nat × Bool :=
  let blen := payload.length
  if blen > 4294967295 then
    ([], true)
  else
    (writeMsgpackBinArrayHeader (blen % 4294967296) ++ payload, false)

/-- C5: a record whose msgpack payload is 2^32 bytes or longer makes the
encode pipeline fail fatally with the too-long panic before any header
or payload bytes are written for it (nothing is written, fatal flag
set), while a payload of at most 2^32 - 1 bytes never raises that
error. -/
theorem claim5_oversize_fatal_before_write :
    ∀ P : List Nat,
      (4294967296 ≤ P.length → jsonToMsgp P = ([], true)) ∧
      (P.length ≤ 4294967295 → (jsonToMsgp P).2 = false) := by
  intro P
  constructor
  · intro h
    simp only [jsonToMsgp]
    rw [if_pos (by omega)]
  · intro h
    simp only [jsonToMsgp]
    rw [if_neg (by omega)]

/-- Witness for C5: a 2^32-byte payload is rejected with nothing
written, and the one-byte payload [7] raises no such error. -/
theorem claim5_oversize_fatal_before_write_witness :
    jsonToMsgp (List.replicate 4294967296 0) = ([], true) ∧
    (jsonToMsgp [7]).2 = false :=
  ⟨(claim5_oversize_fatal_before_write (List.replicate 4294967296 0)).1
      (by rw [List.length_replicate]),
   (claim5_oversize_fatal_before_write [7]).2 (by decide)⟩

/-- C10: the narrowing conversion uint32(blen) in jsonToMsgp never
truncates: on every execution path that reaches it (fatal flag false),
the preceding oversize check guarantees blen % 2^32 = blen, so the
frame written is exactly the minimal header declaring the true payload
length followed by the payload. -/
theorem claim10_no_truncation (P : List Nat)
    (h : (jsonToMsgp P).2 = false) :
    P.length % 4294967296 = P.length ∧
    (jsonToMsgp P).1 = writeMsgpackBinArrayHeader P.length ++ P := by
  have hlen : ¬ P.length > 4294967295 := by
    intro hgt
    simp only [jsonToMsgp] at h
    rw [if_pos hgt] at h
    exact Bool.false_ne_true h.symm
  have hmod : P.length % 4294967296 = P.length := Nat.mod_eq_of_lt (by omega)
  refine ⟨hmod, ?_⟩
  simp only [jsonToMsgp]
  rw [if_neg hlen, hmod]

/-- Witness for C10 at the concrete payload [1, 2]. -/
theorem claim10_no_truncation_witness :
    List.length [1, 2] % 4294967296 = List.length [1, 2] ∧
    (jsonToMsgp [1, 2]).1 = writeMsgpackBinArrayHeader (List.length [1, 2]) ++ [1, 2] :=
  claim10_no_truncation [1, 2] (by decide)

/-- Embedding of bufio ReadBytes with delimiter newline: returns the
bytes up to and including the first newline plus the remaining stream
and a flag telling whether a newline was found; when no newline
remains, everything left is returned (at end of stream an error, EOF or
other, accompanies the returned bytes). -/
def readBytesNL (data : List Nat) : List Nat × List Nat × Bool :=
  match data with
  | [] => ([], [], false)
  | b :: rest =>
    if b = 10 then ([10], rest, true)
    else
      let r := readBytesNL rest
      (b :: r.1, r.2.1, r.2.2)

theorem readBytesNL_found_rest_lt (data : List Nat)
    (h : (readBytesNL data).2.2 = true) :
    (readBytesNL data).2.1.length < data.length := by
  induction data with
  | nil => simp [readBytesNL] at h
  | cons b rest ih =>
    by_cases hb : b = 10
    · simp [readBytesNL, hb]
    · simp only [readBytesNL, if_neg hb] at h ⊢
      exact Nat.lt_succ_of_lt (ih h)

/-- Embedding of the line loop of processFile (encode direction): the
stream state is the remaining input bytes plus a flag saying whether
the underlying reader fails (with an error other than EOF) once the
buffered bytes run out. Each iteration reads one line; a read error
other than EOF returns status 2 at once; an empty read at EOF breaks
with status 0; otherwise the line is converted and framed (one frame,
counted here; decode or encode failures panic inside jsonToMsgp and
never return, so the per-line call is modelled as the success path) and
the loop breaks after the final partial line. Returns (status, frames
emitted). -/
def processFile (data : List Nat) (readErr : Bool) (count : Nat) : Nat × Nat :=
  if hf : (readBytesNL data).2.2 = true then
    processFile (readBytesNL data).2.1 readErr (count + 1)
  else if readErr then (2, count)
  else if (readBytesNL data).1 = [] then (0, count)
  else (0, count + 1)
termination_by data.length
decreasing_by exact readBytesNL_found_rest_lt data hf

/-- Embedding of main: the status returned by processFile becomes the
process exit code via os.Exit. -/
def mainExitStatus (data : List Nat) (readErr : Bool) : Nat :=
  (processFile data readErr 0).1

theorem readBytesNL_no_newline (l : List Nat) (h : ¬ 10 ∈ l) :
    readBytesNL l = (l, [], false) := by
  induction l with
  | nil => rfl
  | cons b rest ih =>
    simp only [List.mem_cons, not_or] at h
    simp [readBytesNL, Ne.symm h.1, ih h.2]

theorem readBytesNL_newline (l rest : List Nat) (h : ¬ 10 ∈ l) :
    readBytesNL (l ++ 10 :: rest) = (l ++ [10], rest, true) := by
  induction l with
  | nil => simp [readBytesNL]
  | cons b tl ih =>
    simp only [List.mem_cons, not_or] at h
    simp [readBytesNL, Ne.symm h.1, ih h.2]

theorem processFile_step_line (l rest : List Nat) (e : Bool) (c : Nat)
    (h : ¬ 10 ∈ l) :
    processFile (l ++ 10 :: rest) e c = processFile rest e (c + 1) := by
  rw [processFile]
  rw [dif_pos (by rw [readBytesNL_newline l rest h])]
  congr 1
  rw [readBytesNL_newline l rest h]

theorem processFile_tail (l : List Nat) (e : Bool) (c : Nat) (h : ¬ 10 ∈ l) :
    processFile l e c =
      if e then (2, c) else if l = [] then (0, c) else (0, c + 1) := by
  rw [processFile]
  rw [dif_neg (by rw [readBytesNL_no_newline l h]; simp)]
  rw [readBytesNL_no_newline l h]

theorem processFile_flatten (lines : List (List Nat)) (tail : List Nat)
    (e : Bool) (c : Nat) (h : ∀ l ∈ lines, ¬ 10 ∈ l) :
    processFile ((lines.map (fun l => l ++ [10])).flatten ++ tail) e c =
      processFile tail e (c + lines.length) := by
  induction lines generalizing c with
  | nil => simp
  | cons l ls ih =>
    rw [List.map_cons, List.flatten_cons, List.append_assoc]
    have : l ++ [10] ++ ((ls.map (fun l => l ++ [10])).flatten ++ tail) =
        l ++ 10 :: ((ls.map (fun l => l ++ [10])).flatten ++ tail) := by simp
    rw [this, processFile_step_line _ _ e c (h l (by simp)),
      ih (c + 1) (fun x hx => h x (List.mem_cons_of_mem _ hx))]
    congr 1
    simp [List.length_cons]
    omega

theorem claim6_line_loop :
    (∀ lines : List (List Nat), (∀ l ∈ lines, l ≠ [] ∧ ¬ 10 ∈ l) →
      processFile ((lines.map (fun l => l ++ [10])).flatten) false 0 =
        (0, lines.length)) ∧
    (∀ lines : List (List Nat), ∀ last : List Nat,
      (∀ l ∈ lines, l ≠ [] ∧ ¬ 10 ∈ l) → last ≠ [] → ¬ 10 ∈ last →
      processFile ((lines.map (fun l => l ++ [10])).flatten ++ last) false 0 =
        (0, lines.length + 1)) := by
  constructor
  · intro lines h
    have h2 := processFile_flatten lines [] false 0 (fun l hl => (h l hl).2)
    rw [List.append_nil] at h2
    rw [h2, Nat.zero_add, processFile_tail [] false lines.length (by simp)]
    simp
  · intro lines last h hne h10
    rw [processFile_flatten lines last false 0 (fun l hl => (h l hl).2),
      Nat.zero_add, processFile_tail last false lines.length h10]
    simp [hne]

theorem claim6_line_loop_witness :
    processFile (([[123], [34]].map (fun l => l ++ [10])).flatten) false 0 = (0, 2) ∧
    processFile (([[123]].map (fun l => l ++ [10])).flatten ++ [35]) false 0 = (0, 2) :=
  ⟨claim6_line_loop.1 [[123], [34]] (by decide),
   claim6_line_loop.2 [[123]] [35] (by decide) (by decide) (by decide)⟩

theorem claim7_exit_status :
    ∀ data : List Nat,
      (∀ c : Nat, (processFile data true c).1 = 2 ∧ (processFile data false c).1 = 0) ∧
      mainExitStatus data true = 2 ∧ mainExitStatus data false = 0 := by
  have aux : ∀ n : Nat, ∀ data : List Nat, data.length ≤ n → ∀ c : Nat,
      (processFile data true c).1 = 2 ∧ (processFile data false c).1 = 0 := by
    intro n
    induction n with
    | zero =>
      intro data h c
      have hd : data = [] := List.eq_nil_of_length_eq_zero (Nat.le_zero.mp h)
      subst hd
      rw [processFile_tail [] true c (by simp), processFile_tail [] false c (by simp)]
      simp
    | succ n ih =>
      intro data h c
      by_cases hf : (readBytesNL data).2.2 = true
      · have hlt := readBytesNL_found_rest_lt data hf
        constructor
        · rw [processFile, dif_pos hf]
          exact (ih _ (by omega) (c + 1)).1
        · rw [processFile, dif_pos hf]
          exact (ih _ (by omega) (c + 1)).2
      · constructor
        · rw [processFile, dif_neg hf]
          simp
        · rw [processFile, dif_neg hf]
          by_cases hl : (readBytesNL data).1 = [] <;> simp [hl]
  intro data
  refine ⟨aux data.length data le_rfl, ?_, ?_⟩
  · exact (aux data.length data le_rfl 0).1
  · exact (aux data.length data le_rfl 0).2

/-- One msgpack value as the decode loop sees it: either a byte slice
(the decode of a bin-family object) or a value of any other type
(which the loop meets with a panic in its default arm). -/
inductive MsgpVal where
  | bytes (payload : List Nat)
  | other
deriving DecidableEq

/-- Outcome of one outer decoder.Decode call: fin covers both a clean
end of stream and a decode failure (the loop treats every non-nil
error the same way, by leaving the loop), val is a decoded value plus
the remaining stream bytes. -/
inductive OuterDec where
  | fin
  | val (v : MsgpVal) (rest : List Nat)
deriving DecidableEq

/-- Modelled from the spec: the external structured-binary decoder
(ugorji codec) reading one msgpack object from the stream, which is
not part of this repository. Only the bin family 0xC4/0xC5/0xC6 (the
only objects this codec ever frames, spec section 3) is modelled
exactly, per the header table of the spec; a stream beginning with a
complete bin object yields its payload as a byte slice, a truncated
bin object is a decode error, and any other leading byte is modelled
as a successfully decoded value of some non-byte-slice type, whose
byte consumption is immaterial because the loop panics on it at once.
The real codec rejects some of those other leading bytes (such as
0xC1) with a decode error instead, which would end the loop with a
returned status of 0; either behaviour falls under the disjunction
proved below, which is all the loop theorem uses. -/
def outerDecode (s : List Nat) : OuterDec :=
  match s with
  | [] => .fin
  | t :: tail =>
    if t = 196 then
      match tail with
      | [] => .fin
      | n :: r2 =>
        if r2.length < n then .fin
        else .val (.bytes (r2.take n)) (r2.drop n)
    else if t = 197 then
      match tail with
      | b1 :: b2 :: r2 =>
        if r2.length < b1 * 256 + b2 then .fin
        else .val (.bytes (r2.take (b1 * 256 + b2))) (r2.drop (b1 * 256 + b2))
      | _ => .fin
    else if t = 198 then
      match tail with
      | b1 :: b2 :: b3 :: b4 :: r2 =>
        if r2.length < b1 * 16777216 + b2 * 65536 + b3 * 256 + b4 then .fin
        else .val (.bytes (r2.take (b1 * 16777216 + b2 * 65536 + b3 * 256 + b4)))
                  (r2.drop (b1 * 16777216 + b2 * 65536 + b3 * 256 + b4))
      | _ => .fin
    else .val .other tail

theorem outerDecode_val_rest_lt (s : List Nat) (v : MsgpVal) (rest : List Nat)
    (h : outerDecode s = .val v rest) : rest.length < s.length := by
  unfold outerDecode at h
  repeat' split at h
  all_goals
    first
      | exact OuterDec.noConfusion h
      | (simp only [OuterDec.val.injEq] at h
         rw [← h.2]
         simp only [List.length_cons, List.length_drop, List.length_nil]
         omega)

/-- Outcome of the decode-direction processFile: either a returned
status with the final frame count (the count is also printed), or a
panic (the default arm of the type switch), which aborts the process. -/
inductive MpbOutcome where
  | status (k : Nat) (code : Nat)
  | panicked
deriving DecidableEq, Repr

/-- The outer decode result bundled with the proof that a successful
decode consumes at least one byte of the stream (needed only for the
termination measure of the loop below). -/
def outerDecodeB (s : List Nat) :
    Option (MsgpVal × {r : List Nat // r.length < s.length}) :=
  match ho : outerDecode s with
  | .fin => none
  | .val v rest => some (v, ⟨rest, outerDecode_val_rest_lt s v rest ho⟩)

theorem outerDecodeB_fin (s : List Nat) (h : outerDecode s = .fin) :
    outerDecodeB s = none := by
  unfold outerDecodeB
  split
  · rfl
  · rename_i v rest ho
    rw [h] at ho
    exact OuterDec.noConfusion ho

theorem outerDecodeB_val (s : List Nat) (v : MsgpVal) (rest : List Nat)
    (h : outerDecode s = .val v rest) :
    ∃ hlt : rest.length < s.length, outerDecodeB s = some (v, ⟨rest, hlt⟩) := by
  refine ⟨outerDecode_val_rest_lt s v rest h, ?_⟩
  unfold outerDecodeB
  split
  · rename_i ho
    rw [h] at ho
    exact OuterDec.noConfusion ho
  · rename_i v2 rest2 ho
    rw [h] at ho
    cases ho
    rfl

/-- Embedding of the frame loop of processFile in msgpackParseBench.
Each iteration asks the outer decoder for one msgpack value; a nil
error yields a value, anything else (clean EOF as well as a malformed
or truncated frame) leaves the loop and the function returns 0 with
the frame count. A byte-slice value has its leading bytes inspected by
DecodeMsgpackBinArrayHeader (an empty slice panics on the index-0
read); the two break statements inside the Go type switch leave only
the switch, not the for loop, so an inner header error or a failed
inner decode (innerOk, the external msgpack decode of the remaining
bytes, kept abstract) merely skips the count increment and the loop
continues with the next frame. A non-byte-slice value panics. -/
def processFileMsgpack (innerOk : List Nat → Bool) (s : List Nat) (k : Nat) :
    MpbOutcome :=
  match outerDecodeB s with
  | none => .status k 0
  | some (.other, _) => .panicked
  | some (.bytes bs, ⟨rest, hlt⟩) =>
    match DecodeMsgpackBinArrayHeader bs with
    | none => .panicked
    | some r =>
      if r.err then processFileMsgpack innerOk rest k
      else if innerOk (bs.drop r.headerSize) then
        processFileMsgpack innerOk rest (k + 1)
      else processFileMsgpack innerOk rest k
termination_by s.length
decreasing_by
  all_goals exact hlt

/-- Counterexample to C8: the framed stream 0xC4 0x05 0x01 contains a
single malformed frame (its header declares 5 payload bytes but only 1
byte follows, a truncated payload). The claim requires the run to
abort with a non-zero process outcome; the code instead leaves the
loop, prints the count 0 and returns status 0 (success). -/
theorem claim8_counterexample :
    processFileMsgpack (fun _ => true) [196, 5, 1] 0 = .status 0 0 := by
  rw [processFileMsgpack, outerDecodeB_fin [196, 5, 1] (by rfl)]

/-- C8 amended: the decode-direction processFile never returns a
non-zero status. For every inner-decode behaviour and every input
stream, the run either panics (the default arm of the type switch on a
non-byte-slice value, or the unconditional index-0 read of
DecodeMsgpackBinArrayHeader on an empty payload slice) or returns
status 0 together with the count of successfully decoded frames,
whether or not any frame was malformed; in particular no malformed
frame ever produces a non-zero returned status. -/
theorem claim8_decode_loop_status_zero :
    ∀ innerOk : List Nat → Bool, ∀ s : List Nat, ∀ k : Nat,
      processFileMsgpack innerOk s k = .panicked ∨
      ∃ n : Nat, processFileMsgpack innerOk s k = .status n 0 := by
  intro innerOk
  have aux : ∀ m : Nat, ∀ s : List Nat, s.length ≤ m → ∀ k : Nat,
      processFileMsgpack innerOk s k = .panicked ∨
      ∃ n : Nat, processFileMsgpack innerOk s k = .status n 0 := by
    intro m
    induction m with
    | zero =>
      intro s hs k
      have hnil : s = [] := List.eq_nil_of_length_eq_zero (Nat.le_zero.mp hs)
      subst hnil
      rw [processFileMsgpack]
      exact Or.inr ⟨k, rfl⟩
    | succ m ih =>
      intro s hs k
      rw [processFileMsgpack]
      cases hb : outerDecodeB s with
      | none => exact Or.inr ⟨k, rfl⟩
      | some p =>
        obtain ⟨v, rest, hlt⟩ := p
        cases v with
        | other => exact Or.inl rfl
        | bytes bs =>
          simp only []
          cases hd : DecodeMsgpackBinArrayHeader bs with
          | none => exact Or.inl rfl
          | some r =>
            by_cases he : r.err
            · simp only [he, if_true]
              exact ih rest (by omega) k
            · simp only [he, if_false]
              by_cases hin : innerOk (bs.drop r.headerSize)
              · simp only [hin, if_true]
                exact ih rest (by omega) (k + 1)
              · simp only [hin, if_false]
                exact ih rest (by omega) k
  intro s k
  exact aux s.length s le_rfl k
